import Mathlib

/-!
Verification development for the `browserbase` convenience layer over
IndexedDB (`src/Browserbase.ts`).

The development is a shallow embedding of the claims-relevant parts of the
source:

* the `Where` range-query engine (`toRange`, `getAll`, `getAllKeys`, `get`,
  `getKey`, `cursor`, `forEach`, `map`, `update`) over a model of the host
  storage engine: a store is a list of `(key, value)` records kept by the
  host in ascending key order;
* the `Browserbase` connection state machine (`open`, `close`, `start`,
  `commit`, change dispatch and the broadcast channel bus);
* the schema version manager (`open`'s version computation and the
  `upgrade` routine).

JavaScript `undefined`/`null` are modelled with `Option`; machine numbers
that the code treats as integers (versions, limits, keys) are modelled as
`Nat`/`Int`.  The embedding covers queries against a store's primary key
(`Where.index = ''`), which is the configuration the claims exercise.
-/

namespace Browserbase

/-- Keys of the host storage engine, with their total order. -/
abbrev Key := Int

/-- Model of `IDBKeyRange`: the four constructors produced by
`Where.toRange` (`bound`, `upperBound`, `lowerBound`, `only`). -/
inductive KRange where
  | bound (lower upper : Key) (lowerOpen upperOpen : Bool)
  | upperB (upper : Key) (upperOpen : Bool)
  | lowerB (lower : Key) (lowerOpen : Bool)
  | only (value : Key)
deriving DecidableEq

/-- Host-side membership test of a key in a range; `none` (no range given to
the host) matches every record. -/
def inRange : Option KRange → Key → Bool
  | none, _ => true
  | some (KRange.bound lo hi loOpen hiOpen), k =>
      (if loOpen then decide (lo < k) else decide (lo ≤ k)) &&
      (if hiOpen then decide (k < hi) else decide (k ≤ hi))
  | some (KRange.upperB hi hiOpen), k =>
      if hiOpen then decide (k < hi) else decide (k ≤ hi)
  | some (KRange.lowerB lo loOpen), k =>
      if loOpen then decide (lo < k) else decide (lo ≤ k)
  | some (KRange.only v), k => decide (k = v)

/-- Cursor / fetch direction (`'next'` or `'prev'`). -/
inductive Dir where
  | next
  | prev
deriving DecidableEq

/-- Model of the `ObjectStore` class fields the range engine reads: the
store name and the stored-value / revived-value transform pair (both
`noop`, the identity, by default). -/
structure ObjectStore (V : Type) where
  name : String
  store : V → V
  revive : V → V

/-- The identity-transform store, matching the `noop` defaults. -/
def ObjectStore.idStore (name : String) : ObjectStore V :=
  { name := name, store := id, revive := id }

/-- State of the `Where` range-query builder, one field per class field of
the source (`_upper`, `_lower`, `_upperOpen`, `_lowerOpen`, `_value`,
`_limit`, `_direction`). -/
structure Where where
  _upper : Option Key
  _lower : Option Key
  _upperOpen : Bool
  _lowerOpen : Bool
  _value : Option Key
  _limit : Option Int
  _direction : Dir
deriving DecidableEq

/-- A fresh `Where`, as built by `ObjectStore.where()`. -/
def Where.new : Where :=
  { _upper := none
    _lower := none
    _upperOpen := false
    _lowerOpen := false
    _value := none
    _limit := none
    _direction := Dir.next }

/-- Source `startsAfter(value)`: greater than the value provided. -/
def Where.startsAfter (w : Where) (value : Key) : Where :=
  { w with _lower := some value, _lowerOpen := true }

/-- Source `startsAt(value)`: greater than or equal to the value provided. -/
def Where.startsAt (w : Where) (value : Key) : Where :=
  { w with _lower := some value, _lowerOpen := false }

/-- Source `endsBefore(value)`: less than the value provided. -/
def Where.endsBefore (w : Where) (value : Key) : Where :=
  { w with _upper := some value, _upperOpen := true }

/-- Source `endsAt(value)`: less than or equal to the value provided. -/
def Where.endsAt (w : Where) (value : Key) : Where :=
  { w with _upper := some value, _upperOpen := false }

/-- Source `equals(value)`: exact match, no range. -/
def Where.equals (w : Where) (value : Key) : Where :=
  { w with _value := some value }

/-- Source `limit(count)`: cap the number of returned results. -/
def Where.limit (w : Where) (count : Int) : Where :=
  { w with _limit := some count }

/-- Source `reverse()`: flip the cursor direction to `'prev'`. -/
def Where.reverse (w : Where) : Where :=
  { w with _direction := Dir.prev }

/-- Source `Where.toRange()`: convert the builder state to its `IDBKeyRange`
equivalent (`undefined`, i.e. `none`, when no bound or value is set). -/
def Where.toRange (w : Where) : Option KRange :=
  match w._upper, w._lower with
  | some hi, some lo => some (KRange.bound lo hi w._lowerOpen w._upperOpen)
  | some hi, none => some (KRange.upperB hi w._upperOpen)
  | none, some lo => some (KRange.lowerB lo w._lowerOpen)
  | none, none =>
    match w._value with
    | some v => some (KRange.only v)
    | none => none

/-- The records of the store matching a range, in the host's ascending key
order (`recs` is the store content as the host keeps it: ascending keys). -/
def matching (r : Option KRange) (recs : List (Key × V)) : List (Key × V) :=
  recs.filter (fun p => inRange r p.1)

/-- Records in cursor order for a direction: `'next'` is the host's
ascending order, `'prev'` walks them backwards. -/
def dirOrder (d : Dir) (recs : List (Key × V)) : List (Key × V) :=
  match d with
  | Dir.next => recs
  | Dir.prev => recs.reverse

/-- The JS test `this._limit <= 0` (false when `_limit` is `undefined`). -/
def limitLE0 : Option Int → Bool
  | none => false
  | some n => decide (n ≤ 0)

/-- Whether the cursor's visit counter has reached the configured limit:
the source's `this._limit !== undefined && ++count >= this._limit`. -/
def limitHit : Option Int → Nat → Bool
  | none, _ => false
  | some n, c => decide (n ≤ (c : Int))

/-- One cursor step's new iterator state. -/
def stepSt (f : Key × V → σ → σ × Bool) (s : σ) (r : Key × V) : σ :=
  (f r s).1

/-- The stop test after the iterator ran on record `r` in state `s`, `c`
records having been visited before it: the iterator requested a stop by
returning `false` (second component `true`), or the limit counter is hit. -/
def stopAt (f : Key × V → σ → σ × Bool) (limit : Option Int) (c : Nat)
    (r : Key × V) (s : σ) : Bool :=
  (f r s).2 || limitHit limit (c + 1)

/-- The `request.onsuccess` loop of `Where.cursor`, over the records the
host would hand the cursor in order.  `f` models the iterator: it maps a
record and the current (closure) state to the new state and whether the
iterator returned exactly `false`.  The second component of the result
records, in order, the records the iterator was invoked on. -/
def cursorLoop (f : Key × V → σ → σ × Bool) (limit : Option Int) :
    List (Key × V) → Nat → σ → σ × List (Key × V)
  | [], _, s => (s, [])
  | r :: rs, c, s =>
    if stopAt f limit c r s then ((f r s).1, [r])
    else
      let q := cursorLoop f limit rs (c + 1) (f r s).1
      (q.1, r :: q.2)

/-- Source `Where.cursor(iterator, mode, keyCursor)`: open a cursor over the
range in the configured direction and drive the iterator.  Returns the
final iterator state together with the list of records visited. -/
def Where.cursor (w : Where) (recs : List (Key × V))
    (f : Key × V → σ → σ × Bool) (s0 : σ) : σ × List (Key × V) :=
  cursorLoop f w._limit (dirOrder w._direction (matching w.toRange recs)) 0 s0

/-- Source `Where.forEach(iterator, mode)`: sugar over `cursor` that reads each
record through the revived-value transform before calling the iterator
(which also receives the cursor's primary key); the wrapper never returns
`false`, so only the limit or exhaustion stops it. -/
def Where.forEach (w : Where) (os : ObjectStore V) (recs : List (Key × V))
    (g : V → Key → σ → σ) (s0 : σ) : σ :=
  (w.cursor recs (fun r s => (g (os.revive r.2) r.1 s, false)) s0).1

/-- Source `Where.map(iterator, mode)`: `forEach` collecting the iterator's
per-record return values in order. -/
def Where.map (w : Where) (os : ObjectStore V) (recs : List (Key × V))
    (it : V → Key → R) : List R :=
  w.forEach os recs (fun obj key acc => acc ++ [it obj key]) []

/-- Model of the host's bulk fetch `source.getAll(range, count)` /
`source.getAllKeys(range, count)`: `count` is a WebIDL
`[EnforceRange] unsigned long long`, so a negative count throws a
`TypeError` before any request is issued (result `none`, `0` requests);
a count of `0` or an omitted count retrieves everything.  The second
component counts host requests issued. -/
def hostBulk (recs : List (Key × V)) (r : Option KRange) (count : Option Int) :
    Option (List (Key × V)) × Nat :=
  match count with
  | none => (some (matching r recs), 1)
  | some n =>
    if n < 0 then (none, 0)
    else if n = 0 then (some (matching r recs), 1)
    else (some ((matching r recs).take n.toNat), 1)

/-- Source `Where.getAll()`: the forward direction delegates to the host's bulk
fetch and maps the results through the revived-value transform; the
`'prev'` direction returns `[]` at once when `_limit <= 0` and otherwise
drives a reverse cursor via `forEach`, pushing `revive(obj)` for each
(already revived) record.  The result pairs the fetched values (`none` on
a host `TypeError`) with the number of host requests issued. -/
def Where.getAll (w : Where) (os : ObjectStore V) (recs : List (Key × V)) :
    Option (List V) × Nat :=
  if w._direction = Dir.prev then
    if limitLE0 w._limit then (some [], 0)
    else
      (some (w.forEach os recs (fun obj _ acc => acc ++ [os.revive obj]) []), 1)
  else
    let h := hostBulk recs w.toRange w._limit
    (h.1.map (fun rows => rows.map (fun p => os.revive p.2)), h.2)

/-- Source `Where.getAllKeys()`: like `getAll` but fetching keys; the `'prev'`
direction drives a key cursor pushing `cursor.key` (no transform). -/
def Where.getAllKeys (w : Where) (recs : List (Key × V)) :
    Option (List Key) × Nat :=
  if w._direction = Dir.prev then
    if limitLE0 w._limit then (some [], 0)
    else
      (some (w.cursor recs (fun r (acc : List Key) => (acc ++ [r.1], false)) []).1, 1)
  else
    let h := hostBulk recs w.toRange w._limit
    (h.1.map (fun rows => rows.map Prod.fst), h.2)

/-- Source `Where.get()`: `this.limit(1).getAll()` and then
`this.store.revive(rows[0])` — note the extra `revive` on top of the one
`getAll` already applied.  Outer `none` is a host error, inner `none` is
`rows[0]` being `undefined`. -/
def Where.get (w : Where) (os : ObjectStore V) (recs : List (Key × V)) :
    Option (Option V) :=
  (((w.limit 1).getAll os recs).1).map (fun rows => rows.head?.map os.revive)

/-- Source `Where.getKey()`: `this.limit(1).getAllKeys()` and then `rows[0]`. -/
def Where.getKey (w : Where) (recs : List (Key × V)) : Option (Option Key) :=
  (((w.limit 1).getAllKeys recs).1).map List.head?

/-- The per-record command `Where.update` issues through its cursor:
`(key, none)` is `cursor.delete()`, `(key, some v)` is `cursor.update(v)`
with `v` already passed through the stored-value transform. -/
abbrev UpdateOp (V : Type) := Key × Option V

/-- Applying the collected cursor commands to the host store: the host
deletes the record at a deleted primary key and replaces the value at an
updated one (the primary key itself is unchanged by `cursor.update`). -/
def applyOps (recs : List (Key × V)) (ops : List (UpdateOp V)) : List (Key × V) :=
  recs.filterMap (fun p =>
    match ops.lookup p.1 with
    | none => some p
    | some none => none
    | some (some v) => some (p.1, v))

/-- A change record as dispatched by `dispatchChange(obj, key)` from the
range engine: the new value (`none` for a deletion) and the primary key. -/
abbrev ChangeRec (V : Type) := Option V × Key

/-- Source `Where.update(iterator)`: maps over the range in `'readwrite'` mode;
per record (revived value and primary key), the iterator's return value
dictates the outcome — JS `null` (`some none`) deletes the record and
dispatches a `null` change, JS `undefined` (`none`) does nothing, any
other value `v` (`some (some v)`) overwrites the record with
`this.store.store(v)` and dispatches a change carrying `v`.  Returns the
store content after the transaction together with the dispatched change
records in order. -/
def Where.update (w : Where) (os : ObjectStore V) (recs : List (Key × V))
    (f : V → Option (Option V)) : List (Key × V) × List (ChangeRec V) :=
  let acc := w.forEach os recs
    (fun obj key s =>
      match f obj with
      | some none => (s.1 ++ [(key, (none : Option V))], s.2 ++ [((none : Option V), key)])
      | none => s
      | some (some v) => (s.1 ++ [(key, some (os.store v))], s.2 ++ [(some v, key)]))
    (([], []) : List (UpdateOp V) × List (ChangeRec V))
  (applyOps recs acc.1, acc.2)

/-- The cursor command `Where.update`'s iterator emits for one visited
record `p` (the three branches of the source's `if`/`else if` on the
iterator's return value): `none` for JS `undefined` (leave untouched),
`some (p.1, none)` for JS `null` (`cursor.delete()`), and
`some (p.1, some (store v))` for any other value (`cursor.update`). -/
def updOp (os : ObjectStore V) (f : V → Option (Option V)) (p : Key × V) :
    Option (Key × Option V) :=
  match f (os.revive p.2) with
  | some none => some (p.1, (none : Option V))
  | none => none
  | some (some v) => some (p.1, some (os.store v))

/-- The change record `Where.update` dispatches for one visited record
`p`, if any: a `null` change on deletion, the raw new value on update. -/
def updChg (os : ObjectStore V) (f : V → Option (Option V)) (p : Key × V) :
    Option (ChangeRec V) :=
  match f (os.revive p.2) with
  | some none => some ((none : Option V), p.1)
  | none => none
  | some (some v) => some (some v, p.1)

/- ------------------------------------------------------------------ -/
/- Connection state machine, change bus -/
/- ------------------------------------------------------------------ -/

/-- The origin tag of a change: JS `'local'` (`loc`) or `'remote'` (`rem`). -/
inductive Origin where
  | loc
  | rem
deriving DecidableEq

/-- Which `dispatchEvent` target a change event went to. -/
inductive EvScope where
  | store
  | db
deriving DecidableEq

/-- The detail of a dispatched `change` event: target scope, store name,
new value (`none` when deleted), key and declared origin. -/
structure ChangeEvt (V : Type) where
  scope : EvScope
  storeName : String
  obj : Option V
  key : String
  declaredFrom : Origin
deriving DecidableEq

/-- A message posted on the broadcast channel: the source builds
`path = storeName + '/' + key` and ships the raw value. -/
structure BroadcastMsg (V : Type) where
  path : String
  obj : Option V
deriving DecidableEq

/-- The claims-relevant state of a `Browserbase` handle.
`declaredVersions` stands for `Object.keys(this._versionMap)`; `db`,
`_opening`, `_current` and `_channel` hold, as identifiers, the host
connection, the memoized open promise, the current transaction and the
open broadcast channel (named by its channel name). -/
structure Handle where
  name : String
  dontDispatch : Bool
  declaredVersions : List Nat
  db : Option Nat
  _opening : Option Nat
  _current : Option Nat
  _dispatchRemote : Bool
  _channel : Option String
deriving DecidableEq

/-- A freshly constructed handle (`new Browserbase(name, options)`). -/
def Handle.new (name : String) (dontDispatch : Bool := false) : Handle :=
  { name := name
    dontDispatch := dontDispatch
    declaredVersions := []
    db := none
    _opening := none
    _current := none
    _dispatchRemote := false
    _channel := none }

/-- Outcome of a call to `open()`. -/
inductive OpenOutcome where
  | memoized (p : Nat)
  | rejectedNoVersions
  | requested (p : Nat)
deriving DecidableEq

/-- Whether an `open()` outcome issued an `indexedDB.open` host request. -/
def OpenOutcome.issuesRequest : OpenOutcome → Bool
  | OpenOutcome.requested _ => true
  | _ => false

/-- Source `open()`: return the memoized `this._opening` promise if present;
reject at once (nothing memoized, no host request) when no version was
declared; otherwise memoize a fresh promise and issue the host open
request. -/
def Handle.openCall (b : Handle) (fresh : Nat) : Handle × OpenOutcome :=
  match b._opening with
  | some p => (b, OpenOutcome.memoized p)
  | none =>
    if b.declaredVersions = [] then (b, OpenOutcome.rejectedNoVersions)
    else ({ b with _opening := some fresh }, OpenOutcome.requested fresh)

/-- Source `createChannel(browserbase)`: constructs a `BroadcastChannel`
named `browserbase/<name>` and installs the message handler on it in a
local variable, but then executes `return browserbase._channel;` — the
pre-existing field, `null` on a first open — so the value it hands back
(and that `onOpen` stores) is the old field, never the channel it just
created. -/
def createChannel (b : Handle) : Option String :=
  b._channel

/-- The `onOpen` step run when the host open succeeds: record the
connection and, unless `dontDispatch` was set, store `createChannel`'s
return value in the channel slot (which, per `createChannel`, is the old
slot value, not a fresh channel). -/
def Handle.onOpen (b : Handle) (conn : Nat) : Handle :=
  { b with
    db := some conn
    _channel := if b.dontDispatch then b._channel else createChannel b }

/-- Source `close()`: a no-op when no connection is open (`if (!this.db) return`);
otherwise close the connection, drop the memoized open promise and tear
the channel down (`onClose`). -/
def Handle.close (b : Handle) : Handle :=
  match b.db with
  | none => b
  | some _ => { b with db := none, _opening := none, _channel := none }

/-- Source `start(storeNames?, mode)`: throws when this handle already has a
current transaction; otherwise opens host transaction `t` and returns the
transaction-scoped clone — a fresh handle sharing the connection and
channel whose `_current` is `t`.  The receiver itself is left unchanged
(its `_current` stays as it was); the clone starts with an empty version
map. -/
def Handle.start (b : Handle) (t : Nat) : Except String Handle :=
  if b._current.isSome then
    Except.error "Cannot start a new transaction on an existing transaction browserbase"
  else
    Except.ok { name := b.name
                dontDispatch := b.dontDispatch
                declaredVersions := []
                db := b.db
                _opening := none
                _current := some t
                _dispatchRemote := false
                _channel := b._channel }

/-- Source `commit(options?)`: throws when there is no current transaction;
otherwise clears the current-transaction slot (and, with
`remoteChange: true`, marks subsequent dispatches as remote until the
transaction settles). -/
def Handle.commit (b : Handle) (remoteChange : Bool := false) :
    Except String Handle :=
  if b._current.isNone then
    Except.error "There is no current transaction to commit."
  else
    Except.ok { b with
                _current := none
                _dispatchRemote := b._dispatchRemote || remoteChange }

/-- The completion handler `start` installs on the transaction promise:
when transaction `t` settles, the slot is cleared if it still holds `t`. -/
def Handle.settle (b : Handle) (t : Nat) : Handle :=
  if b._current = some t then { b with _current := none } else b

/-- Source `dispatchChange(store, obj, key, from, dispatchRemote)`: dispatches a
store-scoped and a database-scoped `change` event whose declared origin is
forced to `'remote'` when the handle (or the call) carries the
remote-replay flag; then, when the caller's origin is genuinely `'local'`
and a broadcast channel is open, posts exactly one message with
`path = storeName + '/' + key` and the raw value. -/
def Handle.dispatchChange (b : Handle) (storeName : String) (obj : Option V)
    (key : String) (from_ : Origin := Origin.loc)
    (dispatchRemote : Bool := false) :
    List (ChangeEvt V) × List (BroadcastMsg V) :=
  let declaredFrom := if b._dispatchRemote || dispatchRemote then Origin.rem else from_
  let events := [⟨EvScope.store, storeName, obj, key, declaredFrom⟩,
                 ⟨EvScope.db, storeName, obj, key, declaredFrom⟩]
  let msgs := if from_ = Origin.loc ∧ b._channel.isSome then
      [⟨storeName ++ "/" ++ key, obj⟩] else []
  (events, msgs)

/-- Split a character list at every occurrence of `c`, the semantics of
JS `String.prototype.split` for a one-character separator. -/
def splitCharAux (c : Char) : List Char → List (List Char)
  | [] => [[]]
  | a :: rest =>
    let r := splitCharAux c rest
    if a = c then [] :: r else (a :: r.headD []) :: r.tail

/-- Source `path.split('/')` of the receiving side of the channel. -/
def splitSlash (s : String) : List String :=
  (splitCharAux '/' s.data).map String.mk

/-- The `channel.onmessage` handler of `createChannel`: split the path
into store name and key, look the store up among this context's stores
and, when found, re-raise the change with origin forced to `'remote'`
(a missing store logs a warning and drops the message). -/
def Handle.onChannelMessage (b : Handle) (storeNames : List String)
    (m : BroadcastMsg V) : List (ChangeEvt V) :=
  match splitSlash m.path with
  | storeName :: rest =>
    if storeName ∈ storeNames then
      (b.dispatchChange storeName m.obj (rest.headD "") Origin.rem false).1
    else []
  | [] => []

/- ------------------------------------------------------------------ -/
/- Schema version manager -/
/- ------------------------------------------------------------------ -/

/-- The declared version map `version → storeName → indexSpec`, in
declaration order; `Object.keys` enumeration is modelled by taking the
keys and sorting where the source sorts. -/
abbrev VersionMap := List (Nat × List (String × String))

/-- The declared version numbers. -/
def vkeys (vm : VersionMap) : List Nat := vm.map Prod.fst

/-- The version `open()` asks the host to open at:
`Object.keys(this._versionMap).map(parseInt).sort((a,b) => a-b).pop()`. -/
def openVersion (vm : VersionMap) : Option Nat :=
  (List.insertionSort (· ≤ ·) (vkeys vm)).getLast?

/-- The versions the `upgrade` routine replays from previous version
`old`: just `[0]` when `old` is `0` and a version `0` is declared,
otherwise every declared version strictly greater than `old`, sorted
ascending. -/
def upgradeVersions (vm : VersionMap) (old : Nat) : List Nat :=
  if old = 0 ∧ (vm.lookup 0).isSome then [0]
  else List.insertionSort (· ≤ ·) ((vkeys vm).filter (fun v => old < v))

/-- One step of the upgrade routine: applying one store's index-spec
string for a version (`upgradeStore`), or invoking a version's migration
callback with the previous version. -/
inductive UpAction where
  | applyStore (version : Nat) (storeName spec : String)
  | migrate (version oldVersion : Nat)
deriving DecidableEq

/-- The version an upgrade action belongs to. -/
def UpAction.version : UpAction → Nat
  | UpAction.applyStore v _ _ => v
  | UpAction.migrate v _ => v

/-- The actions the `upgrade` routine performs for one version, in order:
each declared store's spec string is applied first, then the migration
callback, if declared, runs. -/
def versionActions (vm : VersionMap) (handlers : List Nat) (old v : Nat) :
    List UpAction :=
  ((vm.lookup v).getD []).map (fun p => UpAction.applyStore v p.1 p.2) ++
    (if v ∈ handlers then [UpAction.migrate v old] else [])

/-- The full action trace of `upgrade(oldVersion, ...)`: the versions to
replay, ascending, each contributing its store applications followed by
its migration callback.  `handlers` is the set of versions that declared
an upgrade function. -/
def upgradeTrace (vm : VersionMap) (handlers : List Nat) (old : Nat) :
    List UpAction :=
  (upgradeVersions vm old).flatMap (versionActions vm handlers old)

/-- The Safari 8 fix in `onupgradeneeded`:
`event.oldVersion > Math.pow(2, 62) ? 0 : event.oldVersion`. -/
def fixOldVersion (v : Nat) : Nat :=
  if 2 ^ 62 < v then 0 else v

/-- The spec's description of the `[k1, k2)` range selection: exactly the
records whose key `k` satisfies `k1 ≤ k < k2`, in the store's ascending
key order.  Stated from the spec's words, to be compared with the range
engine's behaviour. -/
def specSelect (k1 k2 : Key) (recs : List (Key × V)) : List (Key × V) :=
  recs.filter (fun p => decide (k1 ≤ p.1) && decide (p.1 < k2))

/- ------------------------------------------------------------------ -/
/- Concrete fixtures used by witnesses and counterexamples -/
/- ------------------------------------------------------------------ -/

/-- A one-record store fixture. -/
def c7Recs : List (Key × Int) := [(1, 10)]

/-- A store whose revived-value transform is not the identity. -/
def c8Os : ObjectStore Int := { name := "s", store := id, revive := (· + 1) }

/-- A one-record store fixture. -/
def c8Recs : List (Key × Int) := [(1, 10)]

/-- A handle with a declared version map and no open yet. -/
def c10Handle : Handle := { Handle.new "db" with declaredVersions := [1] }

/-- The transaction-scoped clone `start(1)` produces from a fresh handle
named `db`. -/
def c4Clone : Handle :=
  { name := "db", dontDispatch := false, declaredVersions := [], db := none,
    _opening := none, _current := some 1, _dispatchRemote := false,
    _channel := none }

/-- A three-record ascending store fixture. -/
def c2Recs : List (Key × Int) := [(1, 10), (2, 20), (3, 30)]

/-- A version map declaring versions 1 and 2. -/
def c1Vm : VersionMap := [(1, [("friends", "id")]), (2, [("events", "++, date")])]

/-- A six-record ascending store fixture (the spec's mixed-outcome
update scenario). -/
def c3Recs : List (Key × Int) := [(1, 10), (2, 20), (3, 30), (4, 40), (5, 50), (6, 60)]

/-- A mixed-outcome update iterator: delete 20 and 50 (JS `null`), leave
30 untouched (JS `undefined`), overwrite everything else with its double. -/
def c3Iter (v : Int) : Option (Option Int) :=
  if v = 20 ∨ v = 50 then some none
  else if v = 30 then none
  else some (some (2 * v))

/-- A three-record ascending store fixture for the cursor claim. -/
def c6Recs : List (Key × Int) := [(1, 10), (2, 20), (3, 30)]

/-- A counting iterator that asks the cursor to stop at key 2. -/
def c6Iter : Key × Int → Nat → Nat × Bool :=
  fun r s => (s + 1, decide (r.1 = 2))

/-- The records the counting iterator is expected to visit. -/
def c6Vis : List (Key × Int) := [(1, 10), (2, 20)]

end Browserbase

/- ==================================================================== -/
/- Theorems -/
/- ==================================================================== -/

namespace Browserbase

/-- Source `fixOldVersion` is the identity below the threshold. -/
theorem fixOldVersion_of_le {v : Nat} (h : v ≤ 2 ^ 62) : fixOldVersion v = v := by
  unfold fixOldVersion
  rw [if_neg (by omega)]

/-- Source `fixOldVersion` clamps to `0` above the threshold. -/
theorem fixOldVersion_of_gt {v : Nat} (h : 2 ^ 62 < v) : fixOldVersion v = 0 := by
  unfold fixOldVersion
  rw [if_pos h]

/-- C9: for every previous-version integer `v` reported by the host, the
upgrade's starting version is `0` when `v` exceeds `2^62` and `v`
otherwise. -/
theorem c9_safari_oldVersion (v : Nat) :
    (2 ^ 62 < v → fixOldVersion v = 0) ∧ (v ≤ 2 ^ 62 → fixOldVersion v = v) :=
  ⟨fun h => fixOldVersion_of_gt h, fun h => fixOldVersion_of_le h⟩

/-- Witness for C9 at `2^62 + 1` and at `7`. -/
theorem c9_safari_oldVersion_witness :
    fixOldVersion (2 ^ 62 + 1) = 0 ∧ fixOldVersion 7 = 7 :=
  ⟨(c9_safari_oldVersion (2 ^ 62 + 1)).1 (by norm_num),
   (c9_safari_oldVersion 7).2 (by norm_num)⟩

/-- C4: a handle holding a current transaction (the clone `start()`
returned) rejects a further `start()` with an error; `commit()` clears the
current-transaction slot so that a subsequent `start()` succeeds, and the
transaction settling does the same. -/
theorem c4_single_current_transaction (b : Handle) (t u w : Nat) (b2 : Handle)
    (h : b.start t = Except.ok b2) :
    b2._current = some t ∧
    b2.start u =
      Except.error "Cannot start a new transaction on an existing transaction browserbase" ∧
    (∃ b3, b2.commit = Except.ok b3 ∧
      ∃ b4, b3.start u = Except.ok b4 ∧ b4._current = some u) ∧
    (∃ b5, (b2.settle t).start w = Except.ok b5 ∧ b5._current = some w) := by
  unfold Handle.start at h
  by_cases hb : b._current.isSome
  · rw [if_pos hb] at h
    exact absurd h (by simp)
  · rw [if_neg hb] at h
    injection h with h
    subst h
    refine ⟨rfl, rfl, ⟨_, rfl, _, rfl, rfl⟩, ?_⟩
    simp only [Handle.settle, if_pos rfl]
    exact ⟨_, rfl, rfl⟩

/-- Witness for C4: a fresh handle, transaction ids 1, 2, 3. -/
theorem c4_single_current_transaction_witness :
    c4Clone._current = some 1 ∧
    c4Clone.start 2 =
      Except.error "Cannot start a new transaction on an existing transaction browserbase" ∧
    (∃ b3, c4Clone.commit = Except.ok b3 ∧
      ∃ b4, b3.start 2 = Except.ok b4 ∧ b4._current = some 2) ∧
    (∃ b5, (c4Clone.settle 1).start 3 = Except.ok b5 ∧ b5._current = some 3) :=
  c4_single_current_transaction (Handle.new "db") 1 2 3 c4Clone rfl

/-- Counterexample to C10 as stated: `close()` called while the open is
still in flight (`this.db` not yet set) returns without discarding the
memoized promise, so the following `open()` still returns the memoized
promise and issues no fresh host request. -/
theorem c10_counterexample :
    (c10Handle.openCall 7).2 = OpenOutcome.requested 7 ∧
    (c10Handle.openCall 7).1.close = (c10Handle.openCall 7).1 ∧
    ((c10Handle.openCall 7).1.close.openCall 8).2 = OpenOutcome.memoized 7 ∧
    OpenOutcome.issuesRequest ((c10Handle.openCall 7).1.close.openCall 8).2 = false := by
  decide

/-- C10 (amended): while the memoized open promise exists a second
`open()` returns it with no host request; `close()` discards the memoized
promise only once the connection has opened (`db` set), after which
`open()` issues a fresh host request; a `close()` before the open
completes is a no-op. -/
theorem c10_memoized_open (b : Handle) (fresh fresh2 conn : Nat)
    (hv : b.declaredVersions ≠ []) (hno : b._opening = none) :
    b.openCall fresh = ({ b with _opening := some fresh }, OpenOutcome.requested fresh) ∧
    ({ b with _opening := some fresh } : Handle).openCall fresh2 =
      ({ b with _opening := some fresh }, OpenOutcome.memoized fresh) ∧
    (b.db = none →
      ({ b with _opening := some fresh } : Handle).close = { b with _opening := some fresh }) ∧
    (({ b with _opening := some fresh } : Handle).onOpen conn).close._opening = none ∧
    ((({ b with _opening := some fresh } : Handle).onOpen conn).close.openCall fresh2).2 =
      OpenOutcome.requested fresh2 := by
  refine ⟨?_, rfl, ?_, rfl, ?_⟩
  · unfold Handle.openCall
    rw [hno]
    simp [hv]
  · intro hdb
    unfold Handle.close
    rw [hdb]
  · unfold Handle.openCall Handle.close Handle.onOpen
    simp [hv]

/-- Witness for C10 (amended) at a concrete handle. -/
theorem c10_memoized_open_witness :
    c10Handle.openCall 7 =
      ({ c10Handle with _opening := some 7 }, OpenOutcome.requested 7) ∧
    ({ c10Handle with _opening := some 7 } : Handle).openCall 8 =
      ({ c10Handle with _opening := some 7 }, OpenOutcome.memoized 7) ∧
    (c10Handle.db = none →
      ({ c10Handle with _opening := some 7 } : Handle).close =
        { c10Handle with _opening := some 7 }) ∧
    (({ c10Handle with _opening := some 7 } : Handle).onOpen 5).close._opening = none ∧
    ((({ c10Handle with _opening := some 7 } : Handle).onOpen 5).close.openCall 8).2 =
      OpenOutcome.requested 8 :=
  c10_memoized_open c10Handle 7 8 5 (by decide) rfl

/-- Counterexample to C7 as stated: a forward-direction query with
`limit(0)` does issue a host bulk-fetch request (and, the host treating a
count of `0` as unlimited, does not return an empty result). -/
theorem c7_counterexample :
    ¬ (((Where.new.limit 0).getAll (ObjectStore.idStore "foo") c7Recs).1 = some [] ∧
       ((Where.new.limit 0).getAll (ObjectStore.idStore "foo") c7Recs).2 = 0) := by
  decide

/-- C7 (amended): only the `'prev'` direction short-circuits a limit of at
most `0` to an empty result with no host request; the forward direction
always hands the limit to the host bulk fetch — a limit of `0` fetches the
whole range in one request, a negative limit is rejected by the host
binding before any request. -/
theorem c7_nonpositive_limit {V : Type} (w : Where) (os : ObjectStore V)
    (recs : List (Key × V)) (n : Int) (hl : w._limit = some n) (hn : n ≤ 0) :
    (w._direction = Dir.prev →
      w.getAll os recs = (some [], 0) ∧ w.getAllKeys recs = (some [], 0)) ∧
    (w._direction = Dir.next →
      w.getAll os recs =
        (if n = 0 then (some ((matching w.toRange recs).map (fun p => os.revive p.2)), 1)
         else (none, 0)) ∧
      w.getAllKeys recs =
        (if n = 0 then (some ((matching w.toRange recs).map Prod.fst), 1)
         else (none, 0))) := by
  constructor
  · intro hdir
    have hle : limitLE0 w._limit = true := by
      rw [hl]; simpa [limitLE0] using hn
    constructor
    · unfold Where.getAll
      rw [if_pos hdir, if_pos hle]
    · unfold Where.getAllKeys
      rw [if_pos hdir, if_pos hle]
  · intro hdir
    have hnp : ¬ w._direction = Dir.prev := by rw [hdir]; intro hc; cases hc
    by_cases h0 : n = 0
    · subst h0
      constructor
      · unfold Where.getAll
        rw [if_neg hnp]
        simp [hostBulk, hl]
      · unfold Where.getAllKeys
        rw [if_neg hnp]
        simp [hostBulk, hl]
    · have hneg : n < 0 := by omega
      constructor
      · unfold Where.getAll
        rw [if_neg hnp]
        simp [hostBulk, hl, h0, hneg]
      · unfold Where.getAllKeys
        rw [if_neg hnp]
        simp [hostBulk, hl, h0, hneg]

/-- Witness for C7 (amended): reverse and forward `limit(0)` queries over
the one-record fixture. -/
theorem c7_nonpositive_limit_witness :
    ((Where.new.limit 0).reverse._direction = Dir.prev →
      (Where.new.limit 0).reverse.getAll (ObjectStore.idStore "foo") c7Recs = (some [], 0) ∧
      (Where.new.limit 0).reverse.getAllKeys c7Recs = (some [], 0)) ∧
    ((Where.new.limit 0).reverse._direction = Dir.next →
      (Where.new.limit 0).reverse.getAll (ObjectStore.idStore "foo") c7Recs =
        (if (0 : Int) = 0 then
          (some ((matching (Where.new.limit 0).reverse.toRange c7Recs).map
            (fun p => (ObjectStore.idStore "foo").revive p.2)), 1)
         else (none, 0)) ∧
      (Where.new.limit 0).reverse.getAllKeys c7Recs =
        (if (0 : Int) = 0 then
          (some ((matching (Where.new.limit 0).reverse.toRange c7Recs).map Prod.fst), 1)
         else (none, 0))) :=
  c7_nonpositive_limit (Where.new.limit 0).reverse (ObjectStore.idStore "foo")
    c7Recs 0 rfl (by decide)

/-- Counterexample to C8 as stated: with a non-identity revived-value
transform, `get()` applies `revive` once more on top of the `getAll`
result, so it differs from the first element of `limit(1).getAll()`. -/
theorem c8_counterexample :
    Where.new.get c8Os c8Recs = some (some 12) ∧
    ((Where.new.limit 1).getAll c8Os c8Recs).1 = some [11] ∧
    Where.new.get c8Os c8Recs ≠
      (((Where.new.limit 1).getAll c8Os c8Recs).1).map List.head? := by
  decide

/-- C8 (amended): `getKey()` always equals the first element of
`limit(1).getAllKeys()`; `get()` equals the first element of
`limit(1).getAll()` whenever the revived-value transform is the identity
(the default) — in general it applies `revive` once more to it. -/
theorem c8_get_via_limit_one {V : Type} (w : Where) (os : ObjectStore V)
    (recs : List (Key × V)) (hrev : os.revive = id) :
    w.get os recs = (((w.limit 1).getAll os recs).1).map List.head? ∧
    w.getKey recs = (((w.limit 1).getAllKeys recs).1).map List.head? := by
  constructor
  · unfold Where.get
    simp [hrev]
  · rfl

/-- Witness for C8 (amended) over the identity store. -/
theorem c8_get_via_limit_one_witness :
    Where.new.get (ObjectStore.idStore "s") c8Recs =
      (((Where.new.limit 1).getAll (ObjectStore.idStore "s") c8Recs).1).map List.head? ∧
    Where.new.getKey c8Recs =
      (((Where.new.limit 1).getAllKeys c8Recs).1).map List.head? :=
  c8_get_via_limit_one Where.new (ObjectStore.idStore "s") c8Recs rfl

/-- Splitting a list that does not contain the separator yields the whole
list as the single fragment. -/
theorem splitCharAux_of_not_mem (c : Char) :
    ∀ (l : List Char), c ∉ l → splitCharAux c l = [l]
  | [], _ => rfl
  | a :: rest, h => by
    have ha : ¬ a = c := fun he => h (by simp [he])
    have hr : splitCharAux c rest = [rest] :=
      splitCharAux_of_not_mem c rest (fun hm => h (List.mem_cons_of_mem a hm))
    simp [splitCharAux, hr, ha]

/-- Splitting around the first separator occurrence isolates the leading
fragment. -/
theorem splitCharAux_append (c : Char) :
    ∀ (l1 l2 : List Char), c ∉ l1 →
      splitCharAux c (l1 ++ c :: l2) = l1 :: splitCharAux c l2
  | [], l2, _ => by simp [splitCharAux]
  | a :: l1, l2, h => by
    have ha : ¬ a = c := fun he => h (by simp [he])
    have hr := splitCharAux_append c l1 l2 (fun hm => h (List.mem_cons_of_mem a hm))
    simp [splitCharAux, hr, ha]

/-- Source `split('/')` of `s + '/' + k` recovers `s` and `k` when neither
contains a slash. -/
theorem splitSlash_append (s k : String)
    (hs : ('/' : Char) ∉ s.data) (hk : ('/' : Char) ∉ k.data) :
    splitSlash (s ++ "/" ++ k) = [s, k] := by
  have hdata : (s ++ "/" ++ k).data = s.data ++ '/' :: k.data := by
    simp [String.data_append]
  unfold splitSlash
  rw [hdata, splitCharAux_append _ _ _ hs, splitCharAux_of_not_mem _ _ hk]
  rfl

/-- C5 (code bug): the claim describes the documented intent — the class
doc promises change events "even when the change did not originate in
this browser tab", and the historical build assigned the new channel to
`browserbase._channel` inside `createChannel` — but the refactored source
returns the stale field instead.  Evaluated at the failing input, a fresh
handle named `mydb` (cross-context dispatch enabled) opened via `onOpen`
still has no channel, and a mutation dispatched with origin `'local'`
publishes no broadcast message at all, where the claim requires exactly
one. -/
theorem c5_no_broadcast_message :
    (Handle.new "mydb").dontDispatch = false ∧
    ((Handle.new "mydb").onOpen 1)._channel = none ∧
    (((Handle.new "mydb").onOpen 1).dispatchChange "friends" (some (42 : Int)) "a"
        Origin.loc false).2 = [] := by
  decide

/-- The last element of a `≤`-sorted nonempty list is its maximum. -/
theorem sorted_getLast_max :
    ∀ (l : List Nat), l.Sorted (· ≤ ·) → l ≠ [] →
      ∃ y, l.getLast? = some y ∧ y ∈ l ∧ ∀ x ∈ l, x ≤ y
  | [], _, hne => absurd rfl hne
  | [a], _, _ => ⟨a, rfl, by simp, by simp⟩
  | a :: b :: t, hs, _ => by
    obtain ⟨y, hy, hmem, hmax⟩ :=
      sorted_getLast_max (b :: t) hs.of_cons (by simp)
    refine ⟨y, ?_, List.mem_cons_of_mem a hmem, ?_⟩
    · rw [List.getLast?_cons_cons]
      exact hy
    · intro x hx
      rcases List.mem_cons.mp hx with h | h
      · subst h
        exact (List.sorted_cons.mp hs).1 y hmem
      · exact hmax x h

/-- Insertion-sorting a duplicate-free list of naturals by `≤` yields a
strictly sorted list. -/
theorem insertionSort_sorted_lt (l : List Nat) (h : l.Nodup) :
    (List.insertionSort (· ≤ ·) l).Sorted (· < ·) := by
  have h1 : (List.insertionSort (· ≤ ·) l).Sorted (· ≤ ·) :=
    List.sorted_insertionSort _ l
  have h2 : (List.insertionSort (· ≤ ·) l).Nodup :=
    ((List.perm_insertionSort (· ≤ ·) l).nodup_iff).2 h
  exact (h1.and h2).imp fun hab => lt_of_le_of_ne hab.1 hab.2

/-- Filtering a concatenation of version blocks down to one version
recovers exactly that version's block, when the version list has no
duplicates and every action in a block carries its block's version. -/
theorem filter_flatMap_version (F : Nat → List UpAction)
    (hF : ∀ u, ∀ a ∈ F u, a.version = u) :
    ∀ (l : List Nat), l.Nodup → ∀ v ∈ l,
      (l.flatMap F).filter (fun a => decide (a.version = v)) = F v
  | [], _, v, hv => absurd hv (by simp)
  | u :: t, hnd, v, hv => by
    have hu : u ∉ t := (List.nodup_cons.mp hnd).1
    have hnd2 : t.Nodup := (List.nodup_cons.mp hnd).2
    rw [List.flatMap_cons, List.filter_append]
    rcases List.mem_cons.mp hv with h | h
    · subst h
      have hself : (F v).filter (fun a => decide (a.version = v)) = F v :=
        List.filter_eq_self.mpr fun a ha => by simp [hF v a ha]
      have hnil : (t.flatMap F).filter (fun a => decide (a.version = v)) = [] := by
        refine List.filter_eq_nil_iff.mpr fun a ha => ?_
        obtain ⟨u2, hu2, ha2⟩ := List.mem_flatMap.mp ha
        have hv2 : a.version = u2 := hF u2 a ha2
        simp only [decide_eq_true_eq]
        intro hav
        have he : u2 = v := by rw [← hv2, hav]
        exact hu (he ▸ hu2)
      rw [hself, hnil, List.append_nil]
    · have hvu : v ≠ u := fun he => hu (he ▸ h)
      have hnil : (F u).filter (fun a => decide (a.version = v)) = [] := by
        refine List.filter_eq_nil_iff.mpr fun a ha => ?_
        have : a.version = u := hF u a ha
        simp [this, hvu.symm]
      rw [hnil, List.nil_append]
      exact filter_flatMap_version F hF t hnd2 v h

/-- Every action in a version's block carries that version. -/
theorem versionActions_version (vm : VersionMap) (handlers : List Nat)
    (old v : Nat) : ∀ a ∈ versionActions vm handlers old v, a.version = v := by
  intro a ha
  unfold versionActions at ha
  rcases List.mem_append.mp ha with h | h
  · obtain ⟨p, _, hp⟩ := List.mem_map.mp h
    rw [← hp]
    rfl
  · by_cases hh : v ∈ handlers
    · rw [if_pos hh] at h
      rcases List.mem_singleton.mp h with rfl
      rfl
    · rw [if_neg hh] at h
      cases h

/-- The versions the upgrade routine replays never repeat. -/
theorem upgradeVersions_nodup (vm : VersionMap) (old : Nat)
    (hnd : (vkeys vm).Nodup) : (upgradeVersions vm old).Nodup := by
  unfold upgradeVersions
  by_cases hc : old = 0 ∧ (vm.lookup 0).isSome
  · rw [if_pos hc]
    simp
  · rw [if_neg hc]
    exact ((List.perm_insertionSort (· ≤ ·) _).nodup_iff).2 (hnd.filter _)

/-- C1: `open()` asks the host for the highest declared version; the
upgrade routine replays exactly the declared versions strictly greater
than the reported previous version, in strictly ascending order — except
that a previous version `0` with a declared version `0` replays only
version `0` — and each replayed version contributes its store/index
applications followed by its migration callback, if declared. -/
theorem c1_version_manager (vm : VersionMap) (handlers : List Nat) (old : Nat)
    (hnd : (vkeys vm).Nodup) :
    (vm ≠ [] → ∃ hv, openVersion vm = some hv ∧ hv ∈ vkeys vm ∧
      ∀ k ∈ vkeys vm, k ≤ hv) ∧
    (old = 0 → (vm.lookup 0).isSome → upgradeVersions vm 0 = [0]) ∧
    (¬(old = 0 ∧ (vm.lookup 0).isSome) →
      (∀ v, v ∈ upgradeVersions vm old ↔ v ∈ vkeys vm ∧ old < v) ∧
      (upgradeVersions vm old).Sorted (· < ·)) ∧
    (∀ v ∈ upgradeVersions vm old,
      (upgradeTrace vm handlers old).filter (fun a => decide (a.version = v)) =
        versionActions vm handlers old v) := by
  refine ⟨?_, ?_, ?_, ?_⟩
  · intro hne
    have hkne : vkeys vm ≠ [] := by
      simpa [vkeys] using hne
    have hperm := List.perm_insertionSort (· ≤ ·) (vkeys vm)
    have hLne : List.insertionSort (· ≤ ·) (vkeys vm) ≠ [] := by
      intro hc
      apply hkne
      have hlen := hperm.length_eq
      rw [hc] at hlen
      exact List.length_eq_zero.mp hlen.symm
    obtain ⟨y, hy, hmem, hmax⟩ :=
      sorted_getLast_max _ (List.sorted_insertionSort _ _) hLne
    exact ⟨y, hy, hperm.subset hmem, fun k hk => hmax k (hperm.mem_iff.mpr hk)⟩
  · intro h0 hl
    unfold upgradeVersions
    rw [if_pos ⟨rfl, hl⟩]
  · intro hneg
    unfold upgradeVersions
    rw [if_neg hneg]
    constructor
    · intro v
      rw [(List.perm_insertionSort (· ≤ ·) _).mem_iff, List.mem_filter]
      simp
    · exact insertionSort_sorted_lt _ (hnd.filter _)
  · intro v hv
    unfold upgradeTrace
    exact filter_flatMap_version _ (versionActions_version vm handlers old)
      _ (upgradeVersions_nodup vm old hnd) v hv

/-- Witness for C1: versions 1 and 2 declared, previous version 1. -/
theorem c1_version_manager_witness :
    (c1Vm ≠ [] → ∃ hv, openVersion c1Vm = some hv ∧ hv ∈ vkeys c1Vm ∧
      ∀ k ∈ vkeys c1Vm, k ≤ hv) ∧
    ((1 : Nat) = 0 → (c1Vm.lookup 0).isSome → upgradeVersions c1Vm 0 = [0]) ∧
    (¬((1 : Nat) = 0 ∧ (c1Vm.lookup 0).isSome) →
      (∀ v, v ∈ upgradeVersions c1Vm 1 ↔ v ∈ vkeys c1Vm ∧ 1 < v) ∧
      (upgradeVersions c1Vm 1).Sorted (· < ·)) ∧
    (∀ v ∈ upgradeVersions c1Vm 1,
      (upgradeTrace c1Vm [2] 1).filter (fun a => decide (a.version = v)) =
        versionActions c1Vm [2] 1 v) :=
  c1_version_manager c1Vm [2] 1 (by decide)

/-- Folding a push-accumulator over a list appends the mapped list. -/
theorem foldl_push {α β : Type} (g : α → β) :
    ∀ (l : List α) (a : List β),
      l.foldl (fun acc r => acc ++ [g r]) a = a ++ l.map g
  | [], a => by simp
  | r :: rs, a => by
    rw [List.foldl_cons, foldl_push g rs (a ++ [g r])]
    simp

/-- A cursor whose iterator never returns `false`, with no limit set,
visits every record and folds the iterator over all of them. -/
theorem cursorLoop_noStop {V σ : Type} (f : Key × V → σ → σ × Bool)
    (hf : ∀ r s, (f r s).2 = false) :
    ∀ (l : List (Key × V)) (c : Nat) (s : σ),
      cursorLoop f none l c s = (l.foldl (stepSt f) s, l)
  | [], _, _ => rfl
  | r :: rs, c, s => by
    have hstop : stopAt f none c r s = false := by
      simp [stopAt, hf, limitHit]
    simp only [cursorLoop, hstop, Bool.false_eq_true, if_false,
      cursorLoop_noStop f hf rs (c + 1) (f r s).1, List.foldl_cons]
    rfl

/-- A cursor whose iterator never returns `false`, with a limit `n` not
yet reached by the visit counter `c`, visits exactly the next `n - c`
records. -/
theorem cursorLoop_noStop_limit {V σ : Type} (f : Key × V → σ → σ × Bool)
    (hf : ∀ r s, (f r s).2 = false) (n : Int) :
    ∀ (l : List (Key × V)) (c : Nat) (s : σ), (c : Int) < n →
      cursorLoop f (some n) l c s =
        ((l.take (n - c).toNat).foldl (stepSt f) s, l.take (n - c).toNat)
  | [], c, s, hc => by simp [cursorLoop]
  | r :: rs, c, s, hc => by
    by_cases hstop : n ≤ (c : Int) + 1
    · have h1 : (n - (c : Int)).toNat = 1 := by omega
      have hS : stopAt f (some n) c r s = true := by
        simp only [stopAt, hf, limitHit, Bool.false_or, decide_eq_true_eq]
        push_cast
        omega
      simp [cursorLoop, hS, h1, stepSt]
    · have hS : stopAt f (some n) c r s = false := by
        simp only [stopAt, hf, limitHit, Bool.false_or, decide_eq_false_iff_not]
        push_cast
        omega
      have hrec := cursorLoop_noStop_limit f hf n rs (c + 1) (f r s).1
        (by push_cast; omega)
      have htake : (n - (c : Int)).toNat = (n - ((c : Int) + 1)).toNat + 1 := by
        omega
      have hcast : ((c + 1 : Nat) : Int) = (c : Int) + 1 := by push_cast; rfl
      simp only [cursorLoop, hS, Bool.false_eq_true, if_false, hrec, hcast,
        htake, List.take_succ_cons, List.foldl_cons, stepSt]

/-- The host bulk fetch with a positive count takes that many matching
records in one request. -/
theorem hostBulk_pos {V : Type} (recs : List (Key × V)) (r : Option KRange)
    (n : Int) (hn : 1 ≤ n) :
    hostBulk recs r (some n) = (some ((matching r recs).take n.toNat), 1) := by
  have h0 : ¬ n < 0 := by omega
  have h1 : ¬ n = 0 := by omega
  simp [hostBulk, h0, h1]

/-- Source `forEach` with no limit folds the iterator over every matching record
in the configured direction. -/
theorem forEach_noLimit {V σ : Type} (w : Where) (os : ObjectStore V)
    (recs : List (Key × V)) (g : V → Key → σ → σ) (s0 : σ)
    (hlim : w._limit = none) :
    w.forEach os recs g s0 =
      (dirOrder w._direction (matching w.toRange recs)).foldl
        (fun s r => g (os.revive r.2) r.1 s) s0 := by
  unfold Where.forEach Where.cursor
  rw [hlim, cursorLoop_noStop _ (fun r s => rfl)]
  rfl

/-- Source `forEach` with a positive limit folds the iterator over the first
`n` matching records in the configured direction. -/
theorem forEach_limit {V σ : Type} (w : Where) (os : ObjectStore V)
    (recs : List (Key × V)) (g : V → Key → σ → σ) (s0 : σ) (n : Int)
    (hlim : w._limit = some n) (hn : 1 ≤ n) :
    w.forEach os recs g s0 =
      ((dirOrder w._direction (matching w.toRange recs)).take n.toNat).foldl
        (fun s r => g (os.revive r.2) r.1 s) s0 := by
  unfold Where.forEach Where.cursor
  rw [hlim, cursorLoop_noStop_limit _ (fun r s => rfl) n _ 0 _ (by omega)]
  have h0 : (n - ((0 : Nat) : Int)).toNat = n.toNat := by
    push_cast
    omega
  rw [h0]
  rfl

/-- Source `getAll` in the forward direction with no limit returns every matching
record, revived, in one host request. -/
theorem getAll_next {V : Type} (w : Where) (os : ObjectStore V)
    (recs : List (Key × V)) (hdir : w._direction = Dir.next)
    (hlim : w._limit = none) :
    w.getAll os recs =
      (some ((matching w.toRange recs).map (fun p => os.revive p.2)), 1) := by
  unfold Where.getAll
  rw [hdir, hlim]
  rfl

/-- Source `getAll` in the forward direction with a positive limit returns the
first `n` matching records, revived, in one host request. -/
theorem getAll_next_limit {V : Type} (w : Where) (os : ObjectStore V)
    (recs : List (Key × V)) (n : Int) (hdir : w._direction = Dir.next)
    (hlim : w._limit = some n) (hn : 1 ≤ n) :
    w.getAll os recs =
      (some (((matching w.toRange recs).take n.toNat).map (fun p => os.revive p.2)), 1) := by
  unfold Where.getAll
  rw [hdir, hlim, hostBulk_pos recs _ n hn]
  rfl

/-- Source `getAll` in the reverse direction, when the limit short-circuit does
not fire, accumulates through `forEach` in one cursor request. -/
theorem getAll_prev_eq_forEach {V : Type} (w : Where) (os : ObjectStore V)
    (recs : List (Key × V)) (hdir : w._direction = Dir.prev)
    (hle : limitLE0 w._limit = false) :
    w.getAll os recs =
      (some (w.forEach os recs (fun obj _ acc => acc ++ [os.revive obj]) []), 1) := by
  simp [Where.getAll, hdir, hle]

/-- Source `getAll` in the reverse direction with no limit walks a reverse cursor
over every matching record, reviving twice (once in `forEach`, once in
the collecting callback). -/
theorem getAll_prev {V : Type} (w : Where) (os : ObjectStore V)
    (recs : List (Key × V)) (hdir : w._direction = Dir.prev)
    (hlim : w._limit = none) :
    w.getAll os recs =
      (some (((matching w.toRange recs).reverse).map
        (fun r => os.revive (os.revive r.2))), 1) := by
  rw [getAll_prev_eq_forEach w os recs hdir (by rw [hlim]; rfl)]
  rw [forEach_noLimit w os recs _ _ hlim, hdir]
  simp only [dirOrder]
  rw [foldl_push (fun r : Key × V => os.revive (os.revive r.2))]
  rfl

/-- Source `getAll` in the reverse direction with a positive limit walks a
reverse cursor over the first `n` matching records. -/
theorem getAll_prev_limit {V : Type} (w : Where) (os : ObjectStore V)
    (recs : List (Key × V)) (n : Int) (hdir : w._direction = Dir.prev)
    (hlim : w._limit = some n) (hn : 1 ≤ n) :
    w.getAll os recs =
      (some ((((matching w.toRange recs).reverse).take n.toNat).map
        (fun r => os.revive (os.revive r.2))), 1) := by
  have hle : limitLE0 w._limit = false := by
    rw [hlim]
    simp only [limitLE0, decide_eq_false_iff_not]
    omega
  rw [getAll_prev_eq_forEach w os recs hdir hle]
  rw [forEach_limit w os recs _ _ n hlim hn, hdir]
  simp only [dirOrder]
  rw [foldl_push (fun r : Key × V => os.revive (os.revive r.2))]
  rfl

/-- C2: over an ascending store with identity transforms, the range
`startsAt(k1).endsBefore(k2)` fetched with `getAll()` returns exactly the
records with `k1 ≤ key < k2` in ascending key order; `reverse()` returns
the same records in descending order; `limit(n)` with `n ≥ 1` truncates
to the first `n` in the active direction. -/
theorem c2_range_query {V : Type} (os : ObjectStore V) (hrev : os.revive = id)
    (recs : List (Key × V)) (hsort : (recs.map Prod.fst).Sorted (· < ·))
    (k1 k2 : Key) (n : Int) (hn : 1 ≤ n) :
    (((Where.new.startsAt k1).endsBefore k2).getAll os recs).1 =
      some ((specSelect k1 k2 recs).map Prod.snd) ∧
    ((specSelect k1 k2 recs).map Prod.fst).Sorted (· < ·) ∧
    (((Where.new.startsAt k1).endsBefore k2).reverse.getAll os recs).1 =
      some (((specSelect k1 k2 recs).map Prod.snd).reverse) ∧
    ((((Where.new.startsAt k1).endsBefore k2).limit n).getAll os recs).1 =
      some (((specSelect k1 k2 recs).map Prod.snd).take n.toNat) ∧
    ((((Where.new.startsAt k1).endsBefore k2).reverse.limit n).getAll os recs).1 =
      some ((((specSelect k1 k2 recs).map Prod.snd).reverse).take n.toNat) := by
  have hq : ∀ w : Where, w.toRange = some (KRange.bound k1 k2 false true) →
      matching w.toRange recs = specSelect k1 k2 recs := by
    intro w hw
    rw [hw]
    rfl
  refine ⟨?_, ?_, ?_, ?_, ?_⟩
  · rw [getAll_next _ os recs rfl rfl,
      hq ((Where.new.startsAt k1).endsBefore k2) rfl, hrev]
    simp
  · have hsub : ((specSelect k1 k2 recs).map Prod.fst).Sublist (recs.map Prod.fst) :=
      (List.filter_sublist recs).map Prod.fst
    exact hsort.sublist hsub
  · rw [getAll_prev _ os recs rfl rfl,
      hq ((Where.new.startsAt k1).endsBefore k2).reverse rfl, hrev]
    simp
  · rw [getAll_next_limit _ os recs n rfl rfl hn,
      hq (((Where.new.startsAt k1).endsBefore k2).limit n) rfl, hrev]
    simp [List.map_take]
  · rw [getAll_prev_limit _ os recs n rfl rfl hn,
      hq (((Where.new.startsAt k1).endsBefore k2).reverse.limit n) rfl, hrev]
    simp [List.map_take]

/-- Witness for C2 over a three-record fixture, bounds 1 and 3, limit 1. -/
theorem c2_range_query_witness :
    ((((Where.new.startsAt 1).endsBefore 3).getAll (ObjectStore.idStore "f") c2Recs).1 =
      some ((specSelect 1 3 c2Recs).map Prod.snd)) ∧
    ((specSelect 1 3 c2Recs).map Prod.fst).Sorted (· < ·) ∧
    ((((Where.new.startsAt 1).endsBefore 3).reverse.getAll (ObjectStore.idStore "f") c2Recs).1 =
      some (((specSelect 1 3 c2Recs).map Prod.snd).reverse)) ∧
    (((((Where.new.startsAt 1).endsBefore 3).limit 1).getAll (ObjectStore.idStore "f") c2Recs).1 =
      some (((specSelect 1 3 c2Recs).map Prod.snd).take (1 : Int).toNat)) ∧
    (((((Where.new.startsAt 1).endsBefore 3).reverse.limit 1).getAll
        (ObjectStore.idStore "f") c2Recs).1 =
      some ((((specSelect 1 3 c2Recs).map Prod.snd).reverse).take (1 : Int).toNat)) :=
  c2_range_query (ObjectStore.idStore "f") rfl c2Recs (by decide) 1 3 1 (by decide)

/-- The cursor loop visits a prefix of the records, in order; its final
state folds the iterator over the visits; it advances exactly while no
stop condition holds and, when it ends before exhausting the records, the
stop condition held at the last visit. -/
theorem cursorLoop_spec {V σ : Type} (f : Key × V → σ → σ × Bool)
    (limit : Option Int) :
    ∀ (l : List (Key × V)) (c : Nat) (s sF : σ) (vis : List (Key × V)),
      cursorLoop f limit l c s = (sF, vis) →
      vis = l.take vis.length ∧
      vis.length ≤ l.length ∧
      sF = vis.foldl (stepSt f) s ∧
      (∀ i r, i + 1 < vis.length → l[i]? = some r →
        stopAt f limit (c + i) r ((l.take i).foldl (stepSt f) s) = false) ∧
      (vis.length < l.length →
        ∃ j r, vis.length = j + 1 ∧ l[j]? = some r ∧
          stopAt f limit (c + j) r ((l.take j).foldl (stepSt f) s) = true)
  | [], c, s, sF, vis, h => by
    simp only [cursorLoop] at h
    injection h with h1 h2
    subst h1
    subst h2
    refine ⟨rfl, le_refl _, rfl, ?_, ?_⟩
    · intro i r hi
      simp at hi
    · intro hlen
      simp at hlen
  | r :: rs, c, s, sF, vis, h => by
    by_cases hS : stopAt f limit c r s = true
    · unfold cursorLoop at h
      rw [if_pos hS] at h
      injection h with h1 h2
      subst h1
      subst h2
      refine ⟨rfl, by simp, rfl, ?_, ?_⟩
      · intro i r0 hi
        exact absurd hi (by simp)
      · intro hlen
        refine ⟨0, r, rfl, by simp, ?_⟩
        simpa using hS
    · unfold cursorLoop at h
      rw [if_neg hS] at h
      simp only at h
      injection h with h1 h2
      subst h1
      subst h2
      obtain ⟨ih1, ih2, ih3, ih4, ih5⟩ :=
        cursorLoop_spec f limit rs (c + 1) (f r s).1
          (cursorLoop f limit rs (c + 1) (f r s).1).1
          (cursorLoop f limit rs (c + 1) (f r s).1).2 rfl
      have hSf : stopAt f limit c r s = false := by
        revert hS
        cases stopAt f limit c r s <;> simp
      refine ⟨?_, ?_, ?_, ?_, ?_⟩
      · rw [List.length_cons, List.take_succ_cons, ← ih1]
      · simp only [List.length_cons]
        omega
      · rw [List.foldl_cons]
        exact ih3
      · intro i r0 hi hg
        cases i with
        | zero =>
          rw [List.getElem?_cons_zero] at hg
          injection hg with hg
          subst hg
          simpa using hSf
        | succ j =>
          rw [List.getElem?_cons_succ] at hg
          have hc : c + (j + 1) = c + 1 + j := by omega
          rw [hc, List.take_succ_cons, List.foldl_cons]
          refine ih4 j r0 ?_ hg
          simp only [List.length_cons] at hi
          omega
      · intro hlen
        simp only [List.length_cons] at hlen
        obtain ⟨j, r0, hj, hg, hstop⟩ := ih5 (by omega)
        refine ⟨j + 1, r0, by rw [List.length_cons, hj], ?_, ?_⟩
        · rw [List.getElem?_cons_succ]
          exact hg
        · have hc : c + (j + 1) = c + 1 + j := by omega
          rw [hc, List.take_succ_cons, List.foldl_cons]
          exact hstop

/-- C6: `cursor(iterator, mode, keyOnly?)` invokes the iterator at most
once per matching record in the configured direction (the visits are a
prefix of the direction-ordered matching records); it stops exactly when
the iterator returns `false` or the configured limit count is reached —
otherwise it advances — and it always stops when the records are
exhausted. -/
theorem c6_cursor_iteration {V σ : Type} (w : Where) (recs : List (Key × V))
    (f : Key × V → σ → σ × Bool) (s0 sF : σ) (vis m : List (Key × V))
    (hm : m = dirOrder w._direction (matching w.toRange recs))
    (h : w.cursor recs f s0 = (sF, vis)) :
    vis = m.take vis.length ∧
    vis.length ≤ m.length ∧
    sF = vis.foldl (stepSt f) s0 ∧
    (∀ i r, i + 1 < vis.length → m[i]? = some r →
      stopAt f w._limit i r ((m.take i).foldl (stepSt f) s0) = false) ∧
    (vis.length < m.length →
      ∃ j r, vis.length = j + 1 ∧ m[j]? = some r ∧
        stopAt f w._limit j r ((m.take j).foldl (stepSt f) s0) = true) := by
  subst hm
  obtain ⟨h1, h2, h3, h4, h5⟩ := cursorLoop_spec f w._limit _ 0 s0 sF vis h
  refine ⟨h1, h2, h3, ?_, ?_⟩
  · intro i r hi hg
    simpa using h4 i r hi hg
  · intro hlen
    obtain ⟨j, r, hj, hg, hstop⟩ := h5 hlen
    exact ⟨j, r, hj, hg, by simpa using hstop⟩

/-- Witness for C6: a counting iterator that stops at key 2 over the
three-record fixture. -/
theorem c6_cursor_iteration_witness :
    c6Vis = c6Recs.take c6Vis.length ∧
    c6Vis.length ≤ c6Recs.length ∧
    (2 : Nat) = c6Vis.foldl (stepSt c6Iter) 0 ∧
    (∀ i r, i + 1 < c6Vis.length → c6Recs[i]? = some r →
      stopAt c6Iter Where.new._limit i r
        ((c6Recs.take i).foldl (stepSt c6Iter) 0) = false) ∧
    (c6Vis.length < c6Recs.length →
      ∃ j r, c6Vis.length = j + 1 ∧ c6Recs[j]? = some r ∧
        stopAt c6Iter Where.new._limit j r
          ((c6Recs.take j).foldl (stepSt c6Iter) 0) = true) :=
  c6_cursor_iteration Where.new c6Recs c6Iter 0 2 c6Vis c6Recs
    (by decide) (by decide)

/-- Folding a paired push-accumulator collects the two `filterMap`s. -/
theorem foldl_pair_push {α β γ : Type} (g : α → Option β) (h2 : α → Option γ)
    (F : List β × List γ → α → List β × List γ)
    (hstep : ∀ s r, F s r = (s.1 ++ (g r).toList, s.2 ++ (h2 r).toList)) :
    ∀ (l : List α) (a : List β) (b : List γ),
      l.foldl F (a, b) = (a ++ l.filterMap g, b ++ l.filterMap h2)
  | [], a, b => by simp
  | r :: rs, a, b => by
    rw [List.foldl_cons, hstep, foldl_pair_push g h2 F hstep rs _ _]
    cases hg : g r <;> cases hh : h2 r <;>
      simp [List.filterMap_cons, hg, hh]

/-- Looking a key up among cursor commands for records it does not belong
to yields nothing. -/
theorem lookup_absent {V : Type} (q : Key × V → Bool)
    (gOp : Key × V → Option (Key × Option V))
    (hkey : ∀ r x, gOp r = some x → x.1 = r.1) :
    ∀ (recs : List (Key × V)) (k : Key), k ∉ recs.map Prod.fst →
      List.lookup k ((recs.filter q).filterMap gOp) = none
  | [], k, _ => rfl
  | r :: rs, k, hk => by
    have hk1 : ¬ k = r.1 := fun he => hk (by simp [he])
    have hk2 : k ∉ rs.map Prod.fst := fun hm => hk (by simp [hm])
    by_cases hq : q r
    · rw [List.filter_cons_of_pos hq]
      cases hgr : gOp r with
      | none =>
        rw [List.filterMap_cons_none hgr]
        exact lookup_absent q gOp hkey rs k hk2
      | some x =>
        obtain ⟨x1, x2⟩ := x
        rw [List.filterMap_cons_some hgr]
        have hx : x1 = r.1 := hkey r (x1, x2) hgr
        have hbeq : (k == x1) = false := by
          rw [hx]
          exact beq_eq_false_iff_ne.mpr hk1
        simp only [List.lookup, hbeq]
        exact lookup_absent q gOp hkey rs k hk2
    · rw [List.filter_cons_of_neg hq]
      exact lookup_absent q gOp hkey rs k hk2

/-- Looking a record's key up among the cursor commands of the matching
records recovers exactly that record's command, when keys are unique. -/
theorem lookup_opsList {V : Type} (q : Key × V → Bool)
    (gOp : Key × V → Option (Key × Option V))
    (hkey : ∀ r x, gOp r = some x → x.1 = r.1) :
    ∀ (recs : List (Key × V)), (recs.map Prod.fst).Nodup →
      ∀ k v, (k, v) ∈ recs →
        List.lookup k ((recs.filter q).filterMap gOp) =
          (if q (k, v) then (gOp (k, v)).map Prod.snd else none)
  | [], _, k, v, hm => absurd hm (by simp)
  | r :: rs, hnd, k, v, hm => by
    have hhead : r.1 ∉ rs.map Prod.fst := (List.nodup_cons.mp (by simpa using hnd)).1
    have htail : (rs.map Prod.fst).Nodup := (List.nodup_cons.mp (by simpa using hnd)).2
    rcases List.mem_cons.mp hm with he | hmem
    · have hr : r = (k, v) := he.symm
      subst hr
      by_cases hq : q (k, v)
      · rw [List.filter_cons_of_pos hq, if_pos hq]
        cases hgr : gOp (k, v) with
        | none =>
          rw [List.filterMap_cons_none hgr]
          exact lookup_absent q gOp hkey rs k hhead
        | some x =>
          obtain ⟨x1, x2⟩ := x
          rw [List.filterMap_cons_some hgr]
          have hx : x1 = k := hkey (k, v) (x1, x2) hgr
          have hbeq : (k == x1) = true := by
            rw [hx]
            exact beq_self_eq_true k
          simp only [List.lookup, hbeq, Option.map_some]
          rfl
      · rw [List.filter_cons_of_neg hq, if_neg hq]
        exact lookup_absent q gOp hkey rs k hhead
    · have hk1 : ¬ k = r.1 := by
        intro he
        exact hhead (he ▸ List.mem_map_of_mem Prod.fst hmem)
      by_cases hq : q r
      · rw [List.filter_cons_of_pos hq]
        cases hgr : gOp r with
        | none =>
          rw [List.filterMap_cons_none hgr]
          exact lookup_opsList q gOp hkey rs htail k v hmem
        | some x =>
          obtain ⟨x1, x2⟩ := x
          rw [List.filterMap_cons_some hgr]
          have hbeq : (k == x1) = false := by
            have hx : x1 = r.1 := hkey r (x1, x2) hgr
            rw [hx]
            exact beq_eq_false_iff_ne.mpr hk1
          simp only [List.lookup, hbeq]
          exact lookup_opsList q gOp hkey rs htail k v hmem
      · rw [List.filter_cons_of_neg hq]
        exact lookup_opsList q gOp hkey rs htail k v hmem

/-- C3: `update(fn)` over a range visits each matching record once; a
record for which the iterator returns JS `null` is deleted with a `null`
change record, one for which it returns JS `undefined` is left untouched
with no change record, and any other return value overwrites the record
with that value passed through the stored-value transform, dispatching a
change record carrying the raw value. -/
theorem c3_update_semantics {V : Type} (w : Where) (os : ObjectStore V)
    (recs : List (Key × V)) (f : V → Option (Option V))
    (hlim : w._limit = none) (hdir : w._direction = Dir.next)
    (hnd : (recs.map Prod.fst).Nodup) :
    w.update os recs f =
      (recs.filterMap (fun p =>
        if inRange w.toRange p.1 then
          match f (os.revive p.2) with
          | some none => none
          | none => some p
          | some (some v) => some (p.1, os.store v)
        else some p),
       (matching w.toRange recs).filterMap (updChg os f)) := by
  have hkey : ∀ r x, updOp os f r = some x → x.1 = r.1 := by
    intro r x hx
    unfold updOp at hx
    cases hf : f (os.revive r.2) with
    | none => rw [hf] at hx; cases hx
    | some o => cases o with
      | none =>
        rw [hf] at hx
        injection hx with hx
        rw [← hx]
      | some v =>
        rw [hf] at hx
        injection hx with hx
        rw [← hx]
  have hstep : ∀ (s : List (Key × Option V) × List (ChangeRec V)) (r : Key × V),
      (fun (s : List (Key × Option V) × List (ChangeRec V)) (r : Key × V) =>
        match f (os.revive r.2) with
        | some none => (s.1 ++ [(r.1, (none : Option V))], s.2 ++ [((none : Option V), r.1)])
        | none => s
        | some (some v) => (s.1 ++ [(r.1, some (os.store v))], s.2 ++ [(some v, r.1)])) s r =
      (s.1 ++ (updOp os f r).toList, s.2 ++ (updChg os f r).toList) := by
    intro s r
    cases hf : f (os.revive r.2) with
    | none => simp [updOp, updChg, hf]
    | some o => cases o with
      | none => simp [updOp, updChg, hf]
      | some v => simp [updOp, updChg, hf]
  have hacc : w.forEach os recs
      (fun obj key s =>
        match f obj with
        | some none => (s.1 ++ [(key, (none : Option V))], s.2 ++ [((none : Option V), key)])
        | none => s
        | some (some v) => (s.1 ++ [(key, some (os.store v))], s.2 ++ [(some v, key)]))
      (([], []) : List (UpdateOp V) × List (ChangeRec V)) =
      ((matching w.toRange recs).filterMap (updOp os f),
       (matching w.toRange recs).filterMap (updChg os f)) := by
    rw [forEach_noLimit w os recs _ _ hlim, hdir]
    simp only [dirOrder]
    have hp := foldl_pair_push (updOp os f) (updChg os f) _ hstep
      (matching w.toRange recs) [] []
    simpa using hp
  unfold Where.update
  rw [hacc]
  refine congrArg (fun x => (x, (matching w.toRange recs).filterMap (updChg os f))) ?_
  unfold applyOps
  refine List.filterMap_congr ?_
  intro p hp
  have hmem : (p.1, p.2) ∈ recs := by
    rw [show (p.1, p.2) = p from rfl]
    exact hp
  have hl := lookup_opsList (fun p => inRange w.toRange p.1) (updOp os f) hkey
    recs hnd p.1 p.2 hmem
  rw [show matching w.toRange recs = recs.filter (fun p => inRange w.toRange p.1) from rfl]
  rw [hl]
  by_cases hq : inRange w.toRange p.1
  · rw [if_pos (by simpa using hq), if_pos (by simpa using hq)]
    unfold updOp
    cases hf : f (os.revive p.2) with
    | none => rfl
    | some o => cases o with
      | none => rfl
      | some v => rfl
  · rw [if_neg (by simpa using hq), if_neg (by simpa using hq)]

/-- Witness for C3: the mixed-outcome iterator over the six-record fixture
and the range `startsAt(2).endsAt(5)`. -/
theorem c3_update_semantics_witness :
    ((Where.new.startsAt 2).endsAt 5).update (ObjectStore.idStore "s") c3Recs c3Iter =
      (c3Recs.filterMap (fun p =>
        if inRange ((Where.new.startsAt 2).endsAt 5).toRange p.1 then
          match c3Iter ((ObjectStore.idStore "s").revive p.2) with
          | some none => none
          | none => some p
          | some (some v) => some (p.1, (ObjectStore.idStore "s").store v)
        else some p),
       (matching ((Where.new.startsAt 2).endsAt 5).toRange c3Recs).filterMap
         (updChg (ObjectStore.idStore "s") c3Iter)) :=
  c3_update_semantics ((Where.new.startsAt 2).endsAt 5) (ObjectStore.idStore "s")
    c3Recs c3Iter rfl rfl (by decide)

end Browserbase
